import Mathlib

/-!
# mprpc asynchronous logger: embedding of `src/mprpc/src/logger.cc`

The translation unit defines the singleton `Logger`, whose constructor
starts one detached writer thread.  The thread loops for ever:

```
now   = time(nullptr);  nowtm = localtime(&now);
sprintf(file_name, "%d-%d-%d-log.txt", tm_year+1900, tm_mon+1, tm_mday);
pf    = fopen(file_name, "a+");      if (pf == nullptr) { cout << ...; exit(EXIT_FAILURE); }
msg   = m_lckQue.Pop();              // blocks while the queue is empty
sprintf(time_buf, "%d:%d:%d=>[%s]=>", tm_hour, tm_min, tm_sec, m_loglevel==INFO ? "info":"error");
msg.insert(0, time_buf);  msg.append("\n");
fputs(msg.c_str(), pf);   fclose(pf);
```

The process is modelled as a labelled transition system.  The writer thread
is cut at its only blocking call, `Pop`: one transition runs from the top of
the loop to the call of `Pop`, the next one from the return of `Pop` to
`fclose`.  Producer calls (`Log`, `SetLogLevel`) and the advance of the wall
clock are transitions of the environment and interleave freely; a
`SetLogLevel` that races with the writer between the return of `Pop` and the
read of `m_loglevel` is the interleaving that puts it just before the second
transition.  Each of the two stretches without a blocking call is one atomic
transition.

`localtime` returns a pointer to one `struct tm` with static storage that all
threads share, and `nowtm` is that pointer, not a copy: the state has the
buffer as a field, the writer fills it at the top of the loop and reads the
hour, minute and second from it after `Pop` has returned, and a call of
`localtime` by any other thread in between is a transition that overwrites
it.  `file_name` is an array of the writer and `pf` its stream; both are
fixed before `Pop`.

The buffers `file_name` and `time_buf` hold 128 bytes; the outputs of both
`sprintf` calls are shown to fit for `int` arguments.
-/

namespace Mprpc

/-! ## C integers and `sprintf` -/

/-- Smallest value of a C `int` (32 bit). -/
def INT_MIN : Int := -2147483648

/-- Largest value of a C `int` (32 bit). -/
def INT_MAX : Int := 2147483647

/-- Two's complement reduction of a mathematical integer to a 32-bit `int`. -/
def wrapInt (x : Int) : Int := (x + 2147483648) % 4294967296 - 2147483648

/-- C `int` addition `a + b` on 32-bit machine integers. -/
def addInt (a b : Int) : Int := wrapInt (a + b)

/-- Predicate: the integer is representable as a C `int`. -/
def IsCInt (x : Int) : Prop := INT_MIN ≤ x ∧ x ≤ INT_MAX

instance (x : Int) : Decidable (IsCInt x) := by
  unfold IsCInt
  exact inferInstance

/-- The character of a decimal digit: `'0' + d`. -/
def digitChar (d : Nat) : Char := Char.ofNat (48 + d)

/-- Digit loop of the `%d` conversion: the digits of `n` are produced from the
least significant one and pushed in front of `acc`; `fuel` bounds the loop. -/
def utoaAux : Nat → Nat → List Char → List Char
  | 0, _, acc => acc
  | fuel + 1, n, acc =>
    if n < 10 then digitChar n :: acc
    else utoaAux fuel (n / 10) (digitChar (n % 10) :: acc)

/-- Decimal digits of a natural number, most significant first. -/
def utoa (n : Nat) : List Char := utoaAux (n + 1) n []

/-- The `%d` conversion of `printf`: signed decimal, no padding. -/
def itoa : Int → List Char
  | Int.ofNat n => utoa n
  | Int.negSucc n => '-' :: utoa (n + 1)

/-- The text `%d` prints for an integer, as a string. -/
def decimal (i : Int) : String := String.mk (itoa i)

/-- The value read back from a list of decimal digit characters. -/
def digitsValue (cs : List Char) : Nat :=
  cs.foldl (fun a c => 10 * a + (c.toNat - 48)) 0

/-- Predicate on characters: one of `'0'` .. `'9'`. -/
def IsDigit (c : Char) : Prop := 48 ≤ c.toNat ∧ c.toNat ≤ 57

instance (c : Char) : Decidable (IsDigit c) := by
  unfold IsDigit
  exact inferInstance

/-- An argument of a `printf`-style call. -/
inductive PfArg where
  | int (i : Int)
  | str (s : String)

/-- Interpreter for the `printf` format strings used by the logger: `%d`
prints an `int` argument, `%s` a string argument, every other character is
copied.  A directive without a matching argument ends the output. -/
def sprintfAux : List Char → List PfArg → List Char
  | [], _ => []
  | c :: fmt, args =>
    if c = '%' then
      match fmt, args with
      | d :: rest, PfArg.int i :: args' =>
        if d = 'd' then itoa i ++ sprintfAux rest args' else []
      | d :: rest, PfArg.str s :: args' =>
        if d = 's' then s.data ++ sprintfAux rest args' else []
      | _, _ => []
    else c :: sprintfAux fmt args

/-- The string `sprintf(buf, fmt, args...)` leaves in `buf`. -/
def sprintf (fmt : String) (args : List PfArg) : String :=
  String.mk (sprintfAux fmt.data args)

/-- The NUL character that terminates a C string. -/
def NUL : Char := Char.ofNat 0

/-- What a C function reading a `const char *` sees of a `std::string`'s
`c_str()`: the characters before the first NUL. -/
def cstr (s : String) : String := String.mk (s.data.takeWhile (fun c => c ≠ NUL))

/-- The text `fputs(s.c_str(), pf)` appends to the file. -/
def fputs (s : String) : String := cstr s

/-! ## Broken-down time and log level -/

/-- The fields of `struct tm` the logger reads. -/
structure Tm where
  tm_sec : Int
  tm_min : Int
  tm_hour : Int
  tm_mday : Int
  tm_mon : Int
  tm_year : Int
deriving DecidableEq

/-- Modelled from the spec: the enumeration `LogLevel` of `logger.h` (the
header is absent), "a two-valued tag, `INFO` or `ERROR`". -/
inductive LogLevel where
  | INFO
  | ERROR
deriving DecidableEq

/-- Modelled from the spec: the integer values of the enumerators of
`LogLevel` in `logger.h` (absent), numbered in declaration order. -/
def LogLevel.toInt : LogLevel → Int
  | LogLevel.INFO => 0
  | LogLevel.ERROR => 1

/-- The ternary `(m_loglevel==INFO ? "info":"error")` on the stored value. -/
def levelTag (m_loglevel : Int) : String :=
  if m_loglevel = LogLevel.INFO.toInt then "info" else "error"

/-- The path built by
`sprintf(file_name,"%d-%d-%d-log.txt",nowtm->tm_year+1900,nowtm->tm_mon+1,nowtm->tm_mday)`. -/
def file_name (nowtm : Tm) : String :=
  sprintf "%d-%d-%d-log.txt"
    [PfArg.int (addInt nowtm.tm_year 1900), PfArg.int (addInt nowtm.tm_mon 1),
     PfArg.int nowtm.tm_mday]

/-- The prefix built by
`sprintf(time_buf,"%d:%d:%d=>[%s]=>",tm_hour,tm_min,tm_sec,(m_loglevel==INFO ? "info":"error"))`. -/
def time_buf (nowtm : Tm) (m_loglevel : Int) : String :=
  sprintf "%d:%d:%d=>[%s]=>"
    [PfArg.int nowtm.tm_hour, PfArg.int nowtm.tm_min, PfArg.int nowtm.tm_sec,
     PfArg.str (levelTag m_loglevel)]

/-- The entry the writer builds: `msg.insert(0,time_buf); msg.append("\n")`.
`insert` takes `time_buf` as a C string. -/
def formatEntry (nowtm : Tm) (m_loglevel : Int) (msg : String) : String :=
  cstr (time_buf nowtm m_loglevel) ++ msg ++ "\n"

/-- The diagnostic printed when `fopen` fails. -/
def openErrorText (file_name : String) : String :=
  "logger fiel : " ++ file_name ++ "open error!" ++ "\n"

/-- The exit status `EXIT_FAILURE`. -/
def EXIT_FAILURE : Int := 1

/-! ## The lock queue -/

/-- Modelled from the spec: `LockQueue<std::string>` of `lockqueue.h` (the
header is absent), "an ordered sequence of pending messages; FIFO". -/
abbrev LockQueue := List String

/-- Modelled from the spec: `LockQueue::Push` of `lockqueue.h` (absent),
"appends to the tail; always succeeds". -/
def LockQueue.Push (q : LockQueue) (msg : String) : LockQueue := q ++ [msg]

/-- Modelled from the spec: `LockQueue::Pop` of `lockqueue.h` (absent), "if
the queue is non-empty, removes and returns the head element; if empty,
suspends the calling thread".  `none` stands for the suspended call. -/
def LockQueue.Pop : LockQueue → Option (String × LockQueue)
  | [] => none
  | msg :: rest => some (msg, rest)

/-! ## The process as a transition system -/

/-- Where the writer thread stands between two transitions. -/
inductive Writer where
  /-- At the top of the `for(;;)` body. -/
  | loopTop
  /-- Inside `m_lckQue.Pop()`.  The local `now`, given as the broken-down
  local time of its value, and the array `file_name` are live, and `pf` is
  the open stream on `file_name`.  The local `nowtm` is a pointer to the
  shared buffer `Proc.tmBuf` and holds no time of its own. -/
  | inPop (now : Tm) (file_name : String)
deriving DecidableEq

/-- State of the process from the construction of the `Logger` on. -/
structure Proc where
  /-- The member `m_lckQue`: pending messages. -/
  m_lckQue : LockQueue
  /-- The member `m_loglevel`, as the integer stored in it. -/
  m_loglevel : Int
  /-- What `localtime(time(nullptr))` would return now. -/
  clock : Tm
  /-- The `struct tm` with static storage that `localtime` fills and returns
  a pointer to; every thread that calls `localtime` writes it. -/
  tmBuf : Tm
  /-- Control point and live locals of the writer thread. -/
  writer : Writer
  /-- Paths of the streams that are open (`fopen` done, `fclose` not yet). -/
  openFiles : List String
  /-- Every `fputs` done so far, in order: path of the stream and text. -/
  disk : List (String × String)
  /-- Lines sent to `std::cout`. -/
  stdout : List String
  /-- Status passed to `exit`, once the process has terminated. -/
  exited : Option Int
  /-- History: the arguments of all `Log` calls so far, in call order. -/
  logged : List String
  /-- History: the messages taken by `Pop` and written, in order. -/
  written : List String
deriving DecidableEq

/-- The process right after `static Logger logger;` has been constructed and
the writer thread started.  An object of static storage duration is
zero-initialised before its constructor runs, and the constructor does not
assign `m_loglevel`, so the stored level is `0`.  The buffer of `localtime` is
static too and starts zeroed. -/
def Proc.init (clock : Tm) : Proc where
  m_lckQue := []
  m_loglevel := 0
  clock := clock
  tmBuf := { tm_sec := 0, tm_min := 0, tm_hour := 0, tm_mday := 0, tm_mon := 0, tm_year := 0 }
  writer := Writer.loopTop
  openFiles := []
  disk := []
  stdout := []
  exited := none
  logged := []
  written := []

/-- The transitions of the process. -/
inductive Event where
  /-- A producer thread calls `Logger::Log(msg)`. -/
  | log (msg : String)
  /-- A thread calls `Logger::SetLogLevel(level)`. -/
  | setLogLevel (level : LogLevel)
  /-- The wall clock moves to a new reading. -/
  | tick (now : Tm)
  /-- A thread other than the writer calls `localtime`, which stores the
  broken-down time `result` of its argument in the shared buffer. -/
  | localtime (result : Tm)
  /-- The writer runs from the top of the loop to the call of `Pop`;
  `fopenOk` tells whether `fopen` returns a stream. -/
  | writerOpen (fopenOk : Bool)
  /-- The writer runs from the return of `Pop` to `fclose`. -/
  | writerWrite
deriving DecidableEq

/-- `Logger::Log`: `m_lckQue.Push(msg)`. -/
def Log (s : Proc) (msg : String) : Proc :=
  { s with m_lckQue := LockQueue.Push s.m_lckQue msg, logged := s.logged ++ [msg] }

/-- `Logger::SetLogLevel`: `m_loglevel=level`. -/
def SetLogLevel (s : Proc) (level : LogLevel) : Proc :=
  { s with m_loglevel := level.toInt }

/-- First half of a loop iteration: read the clock into `now`, let
`localtime` fill the shared buffer from it, build `file_name` from the
buffer, `fopen` it, and either terminate the process or enter `Pop`. -/
def writerOpen (s : Proc) (fopenOk : Bool) : Option Proc :=
  match s.writer with
  | Writer.inPop _ _ => none
  | Writer.loopTop =>
    let now := s.clock
    let tmBuf := now
    if fopenOk then
      some { s with tmBuf := tmBuf,
                    writer := Writer.inPop now (file_name tmBuf),
                    openFiles := file_name tmBuf :: s.openFiles }
    else
      some { s with tmBuf := tmBuf,
                    stdout := s.stdout ++ [openErrorText (file_name tmBuf)],
                    exited := some EXIT_FAILURE }

/-- Second half of a loop iteration: `Pop` returns a message, the entry is
formatted from what the shared buffer behind `nowtm` holds now and the level
stored now, written with `fputs` to the open stream, and the stream is
closed. -/
def writerWrite (s : Proc) : Option Proc :=
  match s.writer with
  | Writer.loopTop => none
  | Writer.inPop _ file_name =>
    match LockQueue.Pop s.m_lckQue with
    | none => none
    | some (msg, rest) =>
      some { s with m_lckQue := rest,
                    writer := Writer.loopTop,
                    openFiles := s.openFiles.erase file_name,
                    disk := s.disk ++
                      [(file_name, fputs (formatEntry s.tmBuf s.m_loglevel msg))],
                    written := s.written ++ [msg] }

/-- One transition; `none` when the event cannot happen in the state.  After
`exit` nothing happens any more. -/
def step (s : Proc) (e : Event) : Option Proc :=
  match s.exited with
  | some _ => none
  | none =>
    match e with
    | Event.log msg => some (Log s msg)
    | Event.setLogLevel level => some (SetLogLevel s level)
    | Event.tick now => some { s with clock := now }
    | Event.localtime result => some { s with tmBuf := result }
    | Event.writerOpen fopenOk => writerOpen s fopenOk
    | Event.writerWrite => writerWrite s

/-- A sequence of transitions. -/
def run (s : Proc) : List Event → Option Proc
  | [] => some s
  | e :: es => (step s e).bind (fun s' => run s' es)

/-- The states the process can be in: those a sequence of transitions
reaches from a freshly constructed logger. -/
def Reachable (s : Proc) : Prop := ∃ clock es, run (Proc.init clock) es = some s

/-- The message of a `Log` event. -/
def Event.logMsg? : Event → Option String
  | Event.log msg => some msg
  | _ => none

/-- Events of the environment: producers and the clock, not the writer. -/
def Event.isEnv : Event → Bool
  | Event.writerOpen _ => false
  | Event.writerWrite => false
  | _ => true

/-- Events that are a call of `localtime` by a thread other than the writer. -/
def Event.isLocaltime : Event → Bool
  | Event.localtime _ => true
  | _ => false

/-- What the shared buffer of `localtime` holds after a sequence of events of
the environment, when it held `tm` before: the result of the last call of
`localtime` among them, and `tm` when there is none. -/
def bufferAfter (tm : Tm) : List Event → Tm
  | [] => tm
  | Event.localtime result :: es => bufferAfter result es
  | _ :: es => bufferAfter tm es

/-- Events that are a call of `SetLogLevel`. -/
def Event.isSetLogLevel : Event → Bool
  | Event.setLogLevel _ => true
  | _ => false

/-- The schedule in which the writer completes `n` iterations, every `fopen`
succeeding. -/
def drainEvents : Nat → List Event
  | 0 => []
  | n + 1 => Event.writerOpen true :: Event.writerWrite :: drainEvents n

/-- The broken-down time of a calendar date and a time of day, as
`localtime` returns it: `tm_year` counts from 1900 and `tm_mon` from 0. -/
def mkTm (year mon mday hour min sec : Int) : Tm where
  tm_sec := sec
  tm_min := min
  tm_hour := hour
  tm_mday := mday
  tm_mon := mon - 1
  tm_year := year - 1900


/-- The record is the entry of the message: it went to a file named for some
date, and its text is what `fputs` writes of the entry formatted for the
message with some time and level. -/
def RecordOf (rec : String × String) (msg : String) : Prop :=
  ∃ now tm lvl, rec = (file_name now, fputs (formatEntry tm lvl msg))

/-- The record carries the message: its text is a time stamp, a level tag,
the whole message and a newline. -/
def Carries (rec : String × String) (msg : String) : Prop :=
  ∃ (hour min sec lvl : Int), rec.2 = decimal hour ++ ":" ++ decimal min ++ ":"
    ++ decimal sec ++ "=>[" ++ levelTag lvl ++ "]=>" ++ msg ++ "\n"

/-- The streams that are open, by control point of the writer: none at the
top of the loop, and inside `Pop` exactly the one on the path built from the
time read into `now`. -/
def WriterInv (s : Proc) : Prop :=
  match s.writer with
  | Writer.loopTop => s.openFiles = []
  | Writer.inPop now path => s.openFiles = [path] ∧ path = file_name now

/-- Invariant of the process: nothing is lost or reordered between `Log` and
the file, the open streams follow the writer, every record is the entry of
the message at its position, and the history of `Log` calls is kept. -/
def Inv (s : Proc) : Prop :=
  s.written ++ s.m_lckQue = s.logged ∧ WriterInv s ∧ List.Forall₂ RecordOf s.disk s.written

/-- The scenario of the specification: the logger is first used at 10:01:02
on 2024-05-01, `Log("hello")` is called then, `Log("world")` at 10:01:03, and
the writer is otherwise idle. -/
def helloWorld : List Event :=
  [Event.writerOpen true, Event.log "hello", Event.writerWrite, Event.writerOpen true,
   Event.tick (mkTm 2024 5 1 10 1 3), Event.log "world", Event.writerWrite]

/-- The state the scenario ends in. -/
def helloWorldEnd : Proc where
  m_lckQue := []
  m_loglevel := 0
  clock := mkTm 2024 5 1 10 1 3
  tmBuf := mkTm 2024 5 1 10 1 2
  writer := Writer.loopTop
  openFiles := []
  disk := [("2024-5-1-log.txt", "10:1:2=>[info]=>hello\n"),
           ("2024-5-1-log.txt", "10:1:2=>[info]=>world\n")]
  stdout := []
  exited := none
  logged := ["hello", "world"]
  written := ["hello", "world"]

/-- Two broken-down times agree on the calendar date. -/
def Tm.sameDay (a b : Tm) : Prop :=
  a.tm_year = b.tm_year ∧ a.tm_mon = b.tm_mon ∧ a.tm_mday = b.tm_mday

instance (a b : Tm) : Decidable (Tm.sameDay a b) := by
  unfold Tm.sameDay
  exact inferInstance

/-- The additions `tm_year+1900` and `tm_mon+1` stay within `int`. -/
def Tm.dateFits (a : Tm) : Prop := IsCInt (a.tm_year + 1900) ∧ IsCInt (a.tm_mon + 1)

instance (a : Tm) : Decidable (Tm.dateFits a) := by
  unfold Tm.dateFits
  exact inferInstance

/-- The start of the scenario up to the moment the second message is about
to be formatted: the clock reads 10:01:03 and `world` is the head of the queue. -/
def helloWorldBeforeWrite : List Event :=
  [Event.writerOpen true, Event.log "hello", Event.writerWrite, Event.writerOpen true,
   Event.tick (mkTm 2024 5 1 10 1 3), Event.log "world"]

/-- The writer suspended in `Pop` on an empty queue, the logger having been
constructed at 10:01:02 on 2024-05-01. -/
def waitingIdle : Proc where
  m_lckQue := []
  m_loglevel := 0
  clock := mkTm 2024 5 1 10 1 2
  tmBuf := mkTm 2024 5 1 10 1 2
  writer := Writer.inPop (mkTm 2024 5 1 10 1 2) "2024-5-1-log.txt"
  openFiles := ["2024-5-1-log.txt"]
  disk := []
  stdout := []
  exited := none
  logged := []
  written := []

/-- The writer in `Pop` with `hello` queued. -/
def waitingWithHello : Proc :=
  { waitingIdle with m_lckQue := ["hello"], logged := ["hello"] }

/-- A message with a NUL character in the middle: `ab`, NUL, `cd`. -/
def nulMessage : String := String.mk ['a', 'b', NUL, 'c', 'd']

/-- The writer entered `Pop` at 10:01:02, and `world` arrived at 10:01:03; no
other thread calls `localtime`. -/
def idleThenWorld : List Event :=
  [Event.tick (mkTm 2024 5 1 10 1 3), Event.log "world"]

/-- The same arrival, after another thread has called `localtime` on the time
05:06:07 of 1999-12-31, say the modification time of a file. -/
def idleThenWorldLocaltime : List Event :=
  [Event.tick (mkTm 2024 5 1 10 1 3), Event.localtime (mkTm 1999 12 31 5 6 7),
   Event.log "world"]

/-- The state after `world` was written in that run. -/
def idleThenWorldEnd : Proc where
  m_lckQue := []
  m_loglevel := 0
  clock := mkTm 2024 5 1 10 1 3
  tmBuf := mkTm 2024 5 1 10 1 2
  writer := Writer.loopTop
  openFiles := []
  disk := [("2024-5-1-log.txt", "10:1:2=>[info]=>world\n")]
  stdout := []
  exited := none
  logged := ["world"]
  written := ["world"]

/-- The record carries the tag `info`: its text is a time stamp, `=>[info]=>`
and what `fputs` writes of a message and its newline. -/
def TaggedInfo (rec : String × String) : Prop :=
  ∃ (tm : Tm) (msg : String), rec.2 = decimal tm.tm_hour ++ ":" ++ decimal tm.tm_min ++ ":"
    ++ decimal tm.tm_sec ++ "=>[info]=>" ++ cstr (msg ++ "\n")

/-! ## Decimal rendering -/

theorem utoaAux_acc (fuel n : Nat) (acc : List Char) :
    utoaAux fuel n acc = utoaAux fuel n [] ++ acc := by
  induction fuel generalizing n acc with
  | zero => simp [utoaAux]
  | succ fuel ih =>
    unfold utoaAux
    by_cases h : n < 10
    · simp [h]
    · simp only [h, if_false]
      rw [ih (n / 10) (digitChar (n % 10) :: acc), ih (n / 10) [digitChar (n % 10)]]
      simp

theorem utoaAux_fuel (fuel fuel' n : Nat) (acc : List Char) (h : n < fuel) (h' : n < fuel') :
    utoaAux fuel n acc = utoaAux fuel' n acc := by
  induction fuel generalizing fuel' n acc with
  | zero => omega
  | succ fuel ih =>
    cases fuel' with
    | zero => omega
    | succ fuel' =>
      unfold utoaAux
      by_cases hn : n < 10
      · simp [hn]
      · simp only [hn, if_false]
        exact ih fuel' (n / 10) _ (by omega) (by omega)

theorem utoa_small (n : Nat) (h : n < 10) : utoa n = [digitChar n] := by
  simp [utoa, utoaAux, h]

theorem utoa_step (n : Nat) (h : ¬ n < 10) :
    utoa n = utoa (n / 10) ++ [digitChar (n % 10)] := by
  have h1 : utoa n = utoaAux n (n / 10) [digitChar (n % 10)] := by
    simp [utoa, utoaAux, h]
  rw [h1, utoaAux_acc, utoa, utoaAux_fuel n (n / 10 + 1) (n / 10) [] (by omega) (by omega)]

theorem digitChar_toNat (d : Nat) (h : d < 10) : (digitChar d).toNat = 48 + d := by
  interval_cases d <;> rfl

theorem utoa_ne_nil (n : Nat) : utoa n ≠ [] := by
  by_cases h : n < 10
  · simp [utoa_small n h]
  · simp [utoa_step n h]

theorem utoa_isDigit (n : Nat) : ∀ c ∈ utoa n, IsDigit c := by
  induction n using Nat.strong_induction_on with
  | _ n ih =>
    by_cases h : n < 10
    · intro c hc
      rw [utoa_small n h] at hc
      simp at hc
      subst hc
      simp [IsDigit, digitChar_toNat n h]
      omega
    · intro c hc
      rw [utoa_step n h] at hc
      simp at hc
      rcases hc with hc | hc
      · exact ih (n / 10) (by omega) c hc
      · subst hc
        simp [IsDigit, digitChar_toNat (n % 10) (by omega)]
        omega

theorem digitsValue_append_single (cs : List Char) (c : Char) :
    digitsValue (cs ++ [c]) = 10 * digitsValue cs + (c.toNat - 48) := by
  simp [digitsValue, List.foldl_append]

theorem digitsValue_utoa (n : Nat) : digitsValue (utoa n) = n := by
  induction n using Nat.strong_induction_on with
  | _ n ih =>
    by_cases h : n < 10
    · rw [utoa_small n h]
      simp [digitsValue, digitChar_toNat n h]
    · rw [utoa_step n h, digitsValue_append_single, ih (n / 10) (by omega),
        digitChar_toNat (n % 10) (by omega)]
      omega

theorem utoa_injective (m n : Nat) (h : utoa m = utoa n) : m = n := by
  rw [← digitsValue_utoa m, ← digitsValue_utoa n, h]

theorem utoa_head (n : Nat) (h : n ≠ 0) : (utoa n).head? ≠ some (digitChar 0) := by
  induction n using Nat.strong_induction_on with
  | _ n ih =>
    by_cases hn : n < 10
    · rw [utoa_small n hn]
      simp
      intro hc
      have := congrArg Char.toNat hc
      rw [digitChar_toNat n hn, digitChar_toNat 0 (by omega)] at this
      omega
    · rw [utoa_step n hn]
      have hne := utoa_ne_nil (n / 10)
      have := ih (n / 10) (by omega) (by omega)
      cases hu : utoa (n / 10) with
      | nil => exact absurd hu hne
      | cons c cs =>
        rw [hu] at this
        simpa using this

theorem digitChar_eq_core (d : Nat) (h : d < 10) : digitChar d = Nat.digitChar d := by
  interval_cases d <;> rfl

theorem utoaAux_eq_toDigitsCore (fuel n : Nat) (acc : List Char) :
    utoaAux fuel n acc = Nat.toDigitsCore 10 fuel n acc := by
  induction fuel generalizing n acc with
  | zero => simp [utoaAux, Nat.toDigitsCore]
  | succ fuel ih =>
    unfold utoaAux Nat.toDigitsCore
    by_cases h : n < 10
    · have h0 : n / 10 = 0 := by omega
      have h1 : n % 10 = n := by omega
      simp [h, h0, h1, digitChar_eq_core n h]
    · have h0 : ¬ n / 10 = 0 := by omega
      simp only [h, h0, if_false]
      rw [ih, digitChar_eq_core (n % 10) (by omega)]

theorem decimal_eq_toString (i : Int) : decimal i = toString i := by
  cases i with
  | ofNat n =>
    show String.mk (utoa n) = (Nat.toDigits 10 n).asString
    simp [utoa, Nat.toDigits, utoaAux_eq_toDigitsCore, List.asString]
  | negSucc n =>
    show String.mk ('-' :: utoa (n + 1)) = "-" ++ (Nat.toDigits 10 (n + 1)).asString
    apply String.ext
    simp [utoa, Nat.toDigits, utoaAux_eq_toDigitsCore, List.asString]


/-! ## Formatting -/

theorem file_name_eq (tm : Tm) :
    file_name tm = decimal (addInt tm.tm_year 1900) ++ "-" ++ decimal (addInt tm.tm_mon 1)
      ++ "-" ++ decimal tm.tm_mday ++ "-log.txt" := by
  apply String.ext
  simp [file_name, sprintf, sprintfAux, decimal]

theorem time_buf_eq (tm : Tm) (lvl : Int) :
    time_buf tm lvl = decimal tm.tm_hour ++ ":" ++ decimal tm.tm_min ++ ":" ++ decimal tm.tm_sec
      ++ "=>[" ++ levelTag lvl ++ "]=>" := by
  apply String.ext
  simp [time_buf, sprintf, sprintfAux, decimal]

theorem itoa_ne_nul (i : Int) : ∀ c ∈ itoa i, c ≠ NUL := by
  have hd : ∀ n : Nat, ∀ c ∈ utoa n, c ≠ NUL := by
    intro n c hc hnul
    have := utoa_isDigit n c hc
    rw [hnul] at this
    revert this
    decide
  cases i with
  | ofNat n => exact hd n
  | negSucc n =>
    intro c hc
    simp only [itoa, List.mem_cons] at hc
    rcases hc with hc | hc
    · subst hc
      decide
    · exact hd _ c hc

theorem levelTag_cases (lvl : Int) : levelTag lvl = "info" ∨ levelTag lvl = "error" := by
  unfold levelTag
  by_cases h : lvl = LogLevel.INFO.toInt
  · simp [h]
  · simp [h]

theorem time_buf_ne_nul (tm : Tm) (lvl : Int) : ∀ c ∈ (time_buf tm lvl).data, c ≠ NUL := by
  intro c hc
  rw [time_buf_eq] at hc
  simp only [String.data_append, List.mem_append, decimal] at hc
  have hl : ∀ c ∈ (levelTag lvl).data, c ≠ NUL := by
    rcases levelTag_cases lvl with h | h <;> rw [h] <;> decide
  rcases hc with ((((((hc | hc) | hc) | hc) | hc) | hc) | hc) | hc
  · exact itoa_ne_nul _ c hc
  · revert c; decide
  · exact itoa_ne_nul _ c hc
  · revert c; decide
  · exact itoa_ne_nul _ c hc
  · revert c; decide
  · exact hl c hc
  · revert c; decide

theorem cstr_of_ne_nul (s : String) (h : ∀ c ∈ s.data, c ≠ NUL) : cstr s = s := by
  apply String.ext
  simp only [cstr]
  rw [List.takeWhile_eq_self_iff]
  intro c hc
  simpa using h c hc

theorem cstr_append (a b : String) (h : ∀ c ∈ a.data, c ≠ NUL) :
    cstr (a ++ b) = a ++ cstr b := by
  apply String.ext
  simp only [cstr, String.data_append]
  rw [List.takeWhile_append_of_pos]
  intro c hc
  simpa using h c hc

theorem formatEntry_eq (tm : Tm) (lvl : Int) (msg : String) :
    formatEntry tm lvl msg = decimal tm.tm_hour ++ ":" ++ decimal tm.tm_min ++ ":"
      ++ decimal tm.tm_sec ++ "=>[" ++ levelTag lvl ++ "]=>" ++ msg ++ "\n" := by
  rw [formatEntry, cstr_of_ne_nul _ (time_buf_ne_nul tm lvl), time_buf_eq]


/-! ## The outputs fit the 128-byte buffers -/

theorem utoa_length_le (k n : Nat) (hk : 0 < k) (h : n < 10 ^ k) : (utoa n).length ≤ k := by
  induction k generalizing n with
  | zero => omega
  | succ k ih =>
    by_cases hn : n < 10
    · rw [utoa_small n hn]
      simp
    · rw [utoa_step n hn]
      have hk' : 0 < k := by
        rcases Nat.eq_zero_or_pos k with h0 | h0
        · subst h0
          simp at h
          omega
        · exact h0
      have hlt : n / 10 < 10 ^ k := by
        rw [Nat.pow_succ] at h
        omega
      have := ih (n / 10) hk' hlt
      simp only [List.length_append, List.length_singleton]
      omega

theorem itoa_length_le (i : Int) (h : IsCInt i) : (itoa i).length ≤ 11 := by
  unfold IsCInt INT_MIN INT_MAX at h
  cases i with
  | ofNat n =>
    have : (utoa n).length ≤ 10 := utoa_length_le 10 n (by omega) (by
      have : ((n : Nat) : Int) ≤ 2147483647 := h.2
      norm_num
      omega)
    simp only [itoa]
    omega
  | negSucc n =>
    have : (utoa (n + 1)).length ≤ 10 := utoa_length_le 10 (n + 1) (by omega) (by
      have : -2147483648 ≤ -((n : Int) + 1) := by
        rw [← Int.negSucc_eq]
        exact h.1
      norm_num
      omega)
    simp only [itoa, List.length_cons]
    omega

theorem wrapInt_isCInt (x : Int) : IsCInt (wrapInt x) := by
  unfold IsCInt INT_MIN INT_MAX wrapInt
  omega

theorem levelTag_length (lvl : Int) : (levelTag lvl).length ≤ 5 := by
  rcases levelTag_cases lvl with h | h <;> rw [h] <;> decide

theorem time_buf_fits (tm : Tm) (lvl : Int) (h1 : IsCInt tm.tm_hour) (h2 : IsCInt tm.tm_min)
    (h3 : IsCInt tm.tm_sec) : (time_buf tm lvl).length + 1 ≤ 128 := by
  rw [time_buf_eq]
  have a1 := itoa_length_le _ h1
  have a2 := itoa_length_le _ h2
  have a3 := itoa_length_le _ h3
  have a4 := levelTag_length lvl
  simp only [String.length_append, decimal, String.length_mk]
  have e1 : (":" : String).length = 1 := rfl
  have e2 : ("=>[" : String).length = 3 := rfl
  have e3 : ("]=>" : String).length = 3 := rfl
  omega

theorem file_name_fits (tm : Tm) (h : IsCInt tm.tm_mday) : (file_name tm).length + 1 ≤ 128 := by
  rw [file_name_eq]
  have a1 := itoa_length_le _ (wrapInt_isCInt (tm.tm_year + 1900))
  have a2 := itoa_length_le _ (wrapInt_isCInt (tm.tm_mon + 1))
  have a3 := itoa_length_le _ h
  simp only [String.length_append, decimal, String.length_mk, addInt]
  have e1 : ("-" : String).length = 1 := rfl
  have e2 : ("-log.txt" : String).length = 8 := rfl
  omega

/-! ## File names determine the date -/

theorem digits_split (a a' r r' : List Char) (ha : ∀ c ∈ a, IsDigit c)
    (ha' : ∀ c ∈ a', IsDigit c) (h : a ++ '-' :: r = a' ++ '-' :: r') : a = a' ∧ r = r' := by
  induction a generalizing a' with
  | nil =>
    cases a' with
    | nil => simpa using h
    | cons c cs =>
      simp only [List.nil_append, List.cons_append, List.cons.injEq] at h
      have := ha' c (by simp)
      rw [← h.1] at this
      exact absurd this (by decide)
  | cons b bs ih =>
    cases a' with
    | nil =>
      simp only [List.nil_append, List.cons_append, List.cons.injEq] at h
      have := ha b (by simp)
      rw [h.1] at this
      exact absurd this (by decide)
    | cons c cs =>
      simp only [List.cons_append, List.cons.injEq] at h
      have := ih cs (fun x hx => ha x (by simp [hx])) (fun x hx => ha' x (by simp [hx])) h.2
      exact ⟨by rw [h.1, this.1], this.2⟩

theorem utoa_cons (n : Nat) : ∃ c cs, utoa n = c :: cs ∧ IsDigit c := by
  cases h : utoa n with
  | nil => exact absurd h (utoa_ne_nil n)
  | cons c cs => exact ⟨c, cs, rfl, utoa_isDigit n c (by simp [h])⟩

theorem itoa_split (i j : Int) (r r' : List Char)
    (h : itoa i ++ '-' :: r = itoa j ++ '-' :: r') : i = j ∧ r = r' := by
  cases i with
  | ofNat m =>
    cases j with
    | ofNat n =>
      have := digits_split _ _ r r' (utoa_isDigit m) (utoa_isDigit n) h
      exact ⟨by rw [utoa_injective m n this.1], this.2⟩
    | negSucc n =>
      obtain ⟨c, cs, hc, hd⟩ := utoa_cons m
      simp only [itoa, hc, List.cons_append, List.cons.injEq] at h
      rw [h.1] at hd
      exact absurd hd (by decide)
  | negSucc m =>
    cases j with
    | ofNat n =>
      obtain ⟨c, cs, hc, hd⟩ := utoa_cons n
      simp only [itoa, hc, List.cons_append, List.cons.injEq] at h
      rw [← h.1] at hd
      exact absurd hd (by decide)
    | negSucc n =>
      simp only [itoa, List.cons_append, List.cons.injEq, true_and] at h
      have := digits_split _ _ r r' (utoa_isDigit (m + 1)) (utoa_isDigit (n + 1)) h
      have hmn : m = n := by
        have := utoa_injective _ _ this.1
        omega
      exact ⟨by rw [hmn], this.2⟩

theorem file_name_inj (tm tm' : Tm) (h : file_name tm = file_name tm') :
    addInt tm.tm_year 1900 = addInt tm'.tm_year 1900 ∧ addInt tm.tm_mon 1 = addInt tm'.tm_mon 1
      ∧ tm.tm_mday = tm'.tm_mday := by
  rw [file_name_eq, file_name_eq] at h
  have hd := congrArg String.data h
  simp only [String.data_append, decimal, List.append_assoc] at hd
  simp only [List.singleton_append] at hd
  obtain ⟨h1, hd⟩ := itoa_split _ _ _ _ hd
  obtain ⟨h2, hd⟩ := itoa_split _ _ _ _ hd
  obtain ⟨h3, _⟩ := itoa_split _ _ _ _ hd
  exact ⟨h1, h2, h3⟩

theorem addInt_of_fits (a b : Int) (h : IsCInt (a + b)) : addInt a b = a + b := by
  unfold IsCInt INT_MIN INT_MAX at h
  unfold addInt wrapInt
  omega

/-! ## Transitions -/

theorem run_cons (s : Proc) (e : Event) (es : List Event) :
    run s (e :: es) = (step s e).bind (fun s' => run s' es) := rfl

theorem run_append (s : Proc) (es es' : List Event) :
    run s (es ++ es') = (run s es).bind (fun s' => run s' es') := by
  induction es generalizing s with
  | nil => simp [run]
  | cons e es ih =>
    simp only [List.cons_append, run_cons]
    cases step s e with
    | none => simp
    | some s1 => simpa using ih s1

theorem run_invariant (P : Proc → Prop) (hstep : ∀ s e s', P s → step s e = some s' → P s')
    (s s' : Proc) (es : List Event) (h0 : P s) (h : run s es = some s') : P s' := by
  induction es generalizing s with
  | nil =>
    simp only [run, Option.some.injEq] at h
    exact h ▸ h0
  | cons e es ih =>
    rw [run_cons] at h
    cases hs : step s e with
    | none => simp [hs] at h
    | some s1 =>
      simp only [hs, Option.some_bind] at h
      exact ih s1 (hstep s e s1 h0 hs) h

theorem step_writerWrite (s : Proc) (now : Tm) (fn msg : String) (rest : List String)
    (hex : s.exited = none) (hw : s.writer = Writer.inPop now fn)
    (hq : s.m_lckQue = msg :: rest) :
    step s Event.writerWrite = some { s with
      m_lckQue := rest, writer := Writer.loopTop, openFiles := s.openFiles.erase fn,
      disk := s.disk ++ [(fn, fputs (formatEntry s.tmBuf s.m_loglevel msg))],
      written := s.written ++ [msg] } := by
  simp [step, writerWrite, hex, hw, hq, LockQueue.Pop]

theorem step_writerOpen (s : Proc) (ok : Bool) (hex : s.exited = none)
    (hw : s.writer = Writer.loopTop) :
    step s (Event.writerOpen ok) = some (if ok then
      { s with tmBuf := s.clock, writer := Writer.inPop s.clock (file_name s.clock),
               openFiles := file_name s.clock :: s.openFiles }
      else { s with tmBuf := s.clock,
                    stdout := s.stdout ++ [openErrorText (file_name s.clock)],
                    exited := some EXIT_FAILURE }) := by
  cases ok <;> simp [step, writerOpen, hex, hw]


theorem step_inv (s : Proc) (e : Event) (s' : Proc) (h0 : Inv s) (h : step s e = some s') :
    Inv s' := by
  obtain ⟨hq, hw, hr⟩ := h0
  unfold step at h
  cases hex : s.exited with
  | some c => simp [hex] at h
  | none =>
    simp only [hex] at h
    cases e with
    | log msg =>
      simp only [Option.some.injEq] at h
      subst h
      refine ⟨?_, hw, hr⟩
      simp [Log, LockQueue.Push, ← hq]
    | setLogLevel level =>
      simp only [Option.some.injEq] at h
      subst h
      exact ⟨hq, hw, hr⟩
    | tick now =>
      simp only [Option.some.injEq] at h
      subst h
      exact ⟨hq, hw, hr⟩
    | localtime result =>
      simp only [Option.some.injEq] at h
      subst h
      exact ⟨hq, hw, hr⟩
    | writerOpen ok =>
      unfold writerOpen at h
      unfold WriterInv at hw
      cases hwr : s.writer with
      | inPop now fn => simp [hwr] at h
      | loopTop =>
        simp only [hwr] at h hw
        cases ok with
        | true =>
          simp only [if_true, Option.some.injEq] at h
          subst h
          exact ⟨hq, by simp [WriterInv, hw], hr⟩
        | false =>
          simp only [Bool.false_eq_true, if_false, Option.some.injEq] at h
          subst h
          exact ⟨hq, by simp [WriterInv, hwr, hw], hr⟩
    | writerWrite =>
      unfold writerWrite at h
      unfold WriterInv at hw
      cases hwr : s.writer with
      | loopTop => simp [hwr] at h
      | inPop now fn =>
        simp only [hwr] at h hw
        cases hqu : s.m_lckQue with
        | nil => simp [hqu, LockQueue.Pop] at h
        | cons msg rest =>
          simp only [hqu, LockQueue.Pop, Option.some.injEq] at h
          subst h
          refine ⟨?_, ?_, ?_⟩
          · simp [← hq, hqu]
          · simp [WriterInv, hw.1]
          · refine List.rel_append hr ?_
            refine List.Forall₂.cons ⟨now, s.tmBuf, s.m_loglevel, ?_⟩ List.Forall₂.nil
            rw [hw.2]

theorem init_inv (clock : Tm) : Inv (Proc.init clock) := by
  simp [Inv, WriterInv, Proc.init]

theorem reachable_inv (s : Proc) (h : Reachable s) : Inv s := by
  obtain ⟨clock, es, hrun⟩ := h
  exact run_invariant Inv step_inv _ _ es (init_inv clock) hrun

theorem run_logged (s s' : Proc) (es : List Event) (h : run s es = some s') :
    s'.logged = s.logged ++ es.filterMap Event.logMsg? := by
  induction es generalizing s with
  | nil =>
    simp only [run, Option.some.injEq] at h
    simp [h]
  | cons e es ih =>
    rw [run_cons] at h
    cases hs : step s e with
    | none => simp [hs] at h
    | some s1 =>
      simp only [hs, Option.some_bind] at h
      rw [ih s1 h]
      unfold step at hs
      cases hex : s.exited with
      | some c => simp [hex] at hs
      | none =>
        simp only [hex] at hs
        cases e with
        | log msg =>
          simp only [Option.some.injEq] at hs
          subst hs
          simp [Log, Event.logMsg?]
        | setLogLevel level =>
          simp only [Option.some.injEq] at hs
          subst hs
          simp [SetLogLevel, Event.logMsg?]
        | tick now =>
          simp only [Option.some.injEq] at hs
          subst hs
          simp [Event.logMsg?]
        | localtime result =>
          simp only [Option.some.injEq] at hs
          subst hs
          simp [Event.logMsg?]
        | writerOpen ok =>
          unfold writerOpen at hs
          cases hwr : s.writer with
          | inPop now fn => simp [hwr] at hs
          | loopTop =>
            simp only [hwr] at hs
            cases ok <;> simp at hs <;> subst hs <;> simp [Event.logMsg?]
        | writerWrite =>
          unfold writerWrite at hs
          cases hwr : s.writer with
          | loopTop => simp [hwr] at hs
          | inPop now fn =>
            simp only [hwr] at hs
            cases hqu : s.m_lckQue with
            | nil => simp [hqu, LockQueue.Pop] at hs
            | cons msg rest =>
              simp only [hqu, LockQueue.Pop, Option.some.injEq] at hs
              subst hs
              simp [Event.logMsg?]


theorem write_once (s : Proc) (now : Tm) (fn msg : String) (rest : List String)
    (hex : s.exited = none) (hw : s.writer = Writer.inPop now fn)
    (hq : s.m_lckQue = msg :: rest) :
    ∃ s2, step s Event.writerWrite = some s2 ∧ s2.exited = none ∧
      s2.writer = Writer.loopTop ∧ s2.m_lckQue = rest ∧ s2.written = s.written ++ [msg] :=
  ⟨_, step_writerWrite s now fn msg rest hex hw hq, hex, rfl, rfl, rfl⟩

theorem open_once (s : Proc) (hex : s.exited = none) (hw : s.writer = Writer.loopTop) :
    ∃ s1, step s (Event.writerOpen true) = some s1 ∧ s1.exited = none ∧
      s1.writer = Writer.inPop s.clock (file_name s.clock) ∧ s1.m_lckQue = s.m_lckQue ∧
      s1.written = s.written := by
  have h1 := step_writerOpen s true hex hw
  simp only [if_true] at h1
  exact ⟨_, h1, hex, rfl, rfl, rfl⟩

theorem drain_loopTop (n : Nat) (s : Proc) (hex : s.exited = none)
    (hw : s.writer = Writer.loopTop) (hn : s.m_lckQue.length = n) :
    ∃ s', run s (drainEvents n) = some s' ∧ s'.m_lckQue = [] ∧
      s'.written = s.written ++ s.m_lckQue := by
  induction n generalizing s with
  | zero =>
    refine ⟨s, rfl, ?_, ?_⟩
    · exact List.length_eq_zero.mp hn
    · simp [List.length_eq_zero.mp hn]
  | succ n ih =>
    cases hq : s.m_lckQue with
    | nil => simp [hq] at hn
    | cons msg rest =>
      obtain ⟨s1, h1, hex1, hw1, hq1, hwr1⟩ := open_once s hex hw
      obtain ⟨s2, h2, hex2, hw2, hq2, hwr2⟩ :=
        write_once s1 _ _ msg rest hex1 hw1 (by rw [hq1, hq])
      obtain ⟨s', hrun, hq', hwr'⟩ := ih s2 hex2 hw2 (by
        rw [hq2]
        simpa [hq] using hn)
      refine ⟨s', ?_, hq', ?_⟩
      · simp only [drainEvents, run_cons, h1, h2, Option.some_bind]
        exact hrun
      · rw [hwr', hwr2, hwr1, hq2]
        simp

theorem drainEvents_writer (n : Nat) : ∀ e ∈ drainEvents n, e.isEnv = false := by
  induction n with
  | zero => simp [drainEvents]
  | succ n ih =>
    intro e he
    simp only [drainEvents, List.mem_cons] at he
    rcases he with he | he | he
    · subst he; rfl
    · subst he; rfl
    · exact ih e he

theorem drain_any (s : Proc) (hex : s.exited = none) :
    ∃ ws s', (∀ e ∈ ws, e.isEnv = false) ∧ run s ws = some s' ∧ s'.m_lckQue = [] ∧
      s'.written = s.written ++ s.m_lckQue := by
  cases hw : s.writer with
  | loopTop =>
    obtain ⟨s', h1, h2, h3⟩ := drain_loopTop _ s hex hw rfl
    exact ⟨_, s', drainEvents_writer _, h1, h2, h3⟩
  | inPop now fn =>
    cases hq : s.m_lckQue with
    | nil => exact ⟨[], s, by simp, rfl, hq, by simp⟩
    | cons msg rest =>
      obtain ⟨s2, h1, hex2, hw2, hq2, hwr2⟩ := write_once s now fn msg rest hex hw hq
      obtain ⟨s', h2, h3, h4⟩ := drain_loopTop rest.length s2 hex2 hw2 (by rw [hq2])
      refine ⟨Event.writerWrite :: drainEvents rest.length, s', ?_, ?_, h3, ?_⟩
      · intro e he
        simp only [List.mem_cons] at he
        rcases he with he | he
        · subst he; rfl
        · exact drainEvents_writer _ e he
      · simp only [run_cons, h1, Option.some_bind]
        exact h2
      · rw [h4, hwr2, hq2]
        simp

theorem fputs_formatEntry_of_ne_nul (tm : Tm) (lvl : Int) (msg : String)
    (h : ∀ c ∈ msg.data, c ≠ NUL) : fputs (formatEntry tm lvl msg) = formatEntry tm lvl msg := by
  apply cstr_of_ne_nul
  intro c hc
  rw [formatEntry, cstr_of_ne_nul _ (time_buf_ne_nul tm lvl)] at hc
  simp only [String.data_append, List.mem_append] at hc
  rcases hc with (hc | hc) | hc
  · exact time_buf_ne_nul tm lvl c hc
  · exact h c hc
  · revert c
    decide

theorem sameDay_file_name (a b : Tm) (h : a.sameDay b) : file_name a = file_name b := by
  obtain ⟨h1, h2, h3⟩ := h
  rw [file_name_eq, file_name_eq, h1, h2, h3]

theorem forall2_imp_mem {α β : Type} {R S : α → β → Prop} {l1 : List α} {l2 : List β}
    (h : List.Forall₂ R l1 l2) (himp : ∀ a b, b ∈ l2 → R a b → S a b) :
    List.Forall₂ S l1 l2 := by
  induction h with
  | nil => exact List.Forall₂.nil
  | cons hab _ ih =>
    exact List.Forall₂.cons (himp _ _ (by simp) hab)
      (ih (fun a b hb hr => himp a b (by simp [hb]) hr))

theorem recordOf_carries (rec : String × String) (msg : String) (h : RecordOf rec msg)
    (hnul : ∀ c ∈ msg.data, c ≠ NUL) : Carries rec msg := by
  obtain ⟨now, tm, lvl, hrec⟩ := h
  refine ⟨tm.tm_hour, tm.tm_min, tm.tm_sec, lvl, ?_⟩
  rw [hrec, fputs_formatEntry_of_ne_nul tm lvl msg hnul, formatEntry_eq]

theorem carries_mem (rec : String × String) (msg : String) (h : Carries rec msg) :
    ∀ c ∈ msg.data, c ∈ rec.2.data := by
  obtain ⟨hour, min, sec, lvl, hrec⟩ := h
  intro c hc
  rw [hrec]
  simp [String.data_append, hc]

/-! ## The claims -/

/-- C1, as stated, fails: the message `ab`, NUL, `cd` is logged and dequeued,
the queue is empty, no `fopen` has failed, and the only record on disk is the
time stamp, the tag and `ab`; it holds neither `cd` nor the newline, so it
does not carry the message that was logged. -/
theorem C1_counterexample :
    (run (Proc.init (mkTm 2024 5 1 10 1 2))
      [Event.writerOpen true, Event.log nulMessage, Event.writerWrite]).map
        (fun s => (s.m_lckQue, s.logged, s.written)) = some ([], [nulMessage], [nulMessage]) ∧
    (run (Proc.init (mkTm 2024 5 1 10 1 2))
      [Event.writerOpen true, Event.log nulMessage, Event.writerWrite]).map
        (fun s => (s.exited, s.disk)) =
      some (none, [("2024-5-1-log.txt", "10:1:2=>[info]=>ab")]) ∧
    ¬ Carries ("2024-5-1-log.txt", "10:1:2=>[info]=>ab") nulMessage ∧
    ("10:1:2=>[info]=>ab" : String) ≠ "10:1:2=>[info]=>" ++ nulMessage ++ "\n" := by
  refine ⟨by decide, by decide, ?_, by decide⟩
  intro h
  have := carries_mem _ _ h 'c' (by decide)
  revert this
  decide

/-- C1, amended: from a freshly constructed logger, after any sequence of
transitions, the messages already taken from the queue and written, followed
by the messages still in the queue, are the messages passed to `Log` so far,
in call order, and the records on disk are, one for one and in order, what
`fputs` writes of the entries of the written messages.  When no logged
message contains a NUL character, every record carries the whole message at
its position, so once the queue is empty the records carry exactly the logged
messages, each once and in order; while the process has not exited, the
writer alone can always reach that state. -/
theorem C1_records_carry_logged_messages (clock : Tm) (es : List Event) (s : Proc)
    (h : run (Proc.init clock) es = some s) :
    s.logged = es.filterMap Event.logMsg? ∧
    s.written ++ s.m_lckQue = s.logged ∧
    List.Forall₂ RecordOf s.disk s.written ∧
    ((∀ msg ∈ es.filterMap Event.logMsg?, ∀ c ∈ msg.data, c ≠ NUL) →
      List.Forall₂ Carries s.disk s.written ∧
      (s.m_lckQue = [] → List.Forall₂ Carries s.disk (es.filterMap Event.logMsg?)) ∧
      (s.exited = none → ∃ ws s', (∀ e ∈ ws, e.isEnv = false) ∧ run s ws = some s' ∧
        s'.m_lckQue = [] ∧ List.Forall₂ Carries s'.disk (es.filterMap Event.logMsg?))) := by
  have hinv : Inv s := reachable_inv s ⟨clock, es, h⟩
  have hlog : s.logged = es.filterMap Event.logMsg? := by
    have := run_logged _ _ es h
    simpa [Proc.init] using this
  obtain ⟨hq, _, hr⟩ := hinv
  refine ⟨hlog, hq, hr, ?_⟩
  intro hnul
  have hc : List.Forall₂ Carries s.disk s.written := by
    refine forall2_imp_mem hr (fun rec msg hmem hrec => recordOf_carries rec msg hrec ?_)
    exact hnul msg (by rw [← hlog, ← hq]; simp [hmem])
  refine ⟨hc, ?_, ?_⟩
  · intro hemp
    rw [← hlog, ← hq, hemp, List.append_nil]
    exact hc
  · intro hex
    obtain ⟨ws, s', hws, hrun, hq', hwr'⟩ := drain_any s hex
    refine ⟨ws, s', hws, hrun, hq', ?_⟩
    have hinv' : Inv s' :=
      run_invariant Inv step_inv _ _ ws (reachable_inv s ⟨clock, es, h⟩) hrun
    have hr' := hinv'.2.2
    rw [hwr', hq, hlog] at hr'
    exact forall2_imp_mem hr' (fun rec msg hmem hrec =>
      recordOf_carries rec msg hrec (hnul msg hmem))

/-- Witness of the amended C1 on the scenario of two messages: both records
carry their message. -/
theorem C1_records_carry_logged_messages_witness :
    run (Proc.init (mkTm 2024 5 1 10 1 2)) helloWorld = some helloWorldEnd ∧
    (∀ msg ∈ helloWorld.filterMap Event.logMsg?, ∀ c ∈ msg.data, c ≠ NUL) ∧
    helloWorldEnd.written ++ helloWorldEnd.m_lckQue = helloWorldEnd.logged ∧
    List.Forall₂ Carries helloWorldEnd.disk helloWorldEnd.written :=
  ⟨by decide, by decide,
   (C1_records_carry_logged_messages (mkTm 2024 5 1 10 1 2) helloWorld helloWorldEnd
      (by decide)).2.1,
   ((C1_records_carry_logged_messages (mkTm 2024 5 1 10 1 2) helloWorld helloWorldEnd
      (by decide)).2.2.2 (by decide)).1⟩

/-- C2: for every time of day, stored level and message, the entry the writer
builds is the hour, minute and second as `%d` prints them, separated by
colons, then `=>[`, the level name, `]=>`, the message and a newline.  The
level name is `info` for `INFO` and `error` otherwise; `%d` prints the plain
decimal numeral, without a leading zero, and for `int` fields the prefix
with its terminator fits the 128 bytes of `time_buf`.  At 10:01:02 with level `INFO` the
message `hello` gives `10:1:2=>[info]=>hello` and a newline. -/
theorem C2_entry_format (tm : Tm) (m_loglevel : Int) (msg : String) :
    formatEntry tm m_loglevel msg =
      decimal tm.tm_hour ++ ":" ++ decimal tm.tm_min ++ ":" ++ decimal tm.tm_sec
        ++ "=>[" ++ levelTag m_loglevel ++ "]=>" ++ msg ++ "\n" ∧
    (levelTag m_loglevel = "info" ∨ levelTag m_loglevel = "error") ∧
    levelTag LogLevel.INFO.toInt = "info" ∧ levelTag LogLevel.ERROR.toInt = "error" ∧
    (∀ i : Int, decimal i = toString i) ∧
    (∀ n : Nat, n ≠ 0 → (decimal (Int.ofNat n)).data.head? ≠ some (Char.ofNat 48)) ∧
    decimal 0 = "0" ∧
    (IsCInt tm.tm_hour → IsCInt tm.tm_min → IsCInt tm.tm_sec →
      (time_buf tm m_loglevel).length + 1 ≤ 128) ∧
    formatEntry (mkTm 2024 5 1 10 1 2) LogLevel.INFO.toInt "hello" = "10:1:2=>[info]=>hello\n" := by
  refine ⟨formatEntry_eq tm m_loglevel msg, levelTag_cases m_loglevel, by decide, by decide,
    decimal_eq_toString, ?_, by decide, time_buf_fits tm m_loglevel, by decide⟩
  intro n hn
  exact utoa_head n hn

/-- C3: when the additions `tm_year+1900` and `tm_mon+1` do not overflow
`int`, the path the writer opens is the year, the month and the day of the
month as `%d` prints them (plain decimal, no leading zero), joined by `-` and
followed by `-log.txt`; two such times give the same path exactly when they
agree on year, month and day; the path with its terminator fits the 128
bytes of `file_name`; any time on 2024-05-01 gives `2024-5-1-log.txt`. -/
theorem C3_file_name_of_date (tm tm' : Tm) (h : tm.dateFits) (h' : tm'.dateFits) :
    file_name tm = decimal (tm.tm_year + 1900) ++ "-" ++ decimal (tm.tm_mon + 1) ++ "-"
      ++ decimal tm.tm_mday ++ "-log.txt" ∧
    (file_name tm = file_name tm' ↔ tm.sameDay tm') ∧
    (∀ s : Proc, s.exited = none → s.writer = Writer.loopTop → s.clock = tm →
      (step s (Event.writerOpen true)).map Proc.openFiles = some (file_name tm :: s.openFiles)) ∧
    (∀ i : Int, decimal i = toString i) ∧
    (∀ n : Nat, n ≠ 0 → (decimal (Int.ofNat n)).data.head? ≠ some (Char.ofNat 48)) ∧
    (IsCInt tm.tm_mday → (file_name tm).length + 1 ≤ 128) ∧
    (∀ hour min sec : Int, file_name (mkTm 2024 5 1 hour min sec) = "2024-5-1-log.txt") := by
  have e1 := addInt_of_fits _ _ h.1
  have e2 := addInt_of_fits _ _ h.2
  have e1' := addInt_of_fits _ _ h'.1
  have e2' := addInt_of_fits _ _ h'.2
  refine ⟨?_, ⟨?_, ?_⟩, ?_, decimal_eq_toString, fun n hn => utoa_head n hn,
    file_name_fits tm, ?_⟩
  · rw [file_name_eq, e1, e2]
  · intro heq
    obtain ⟨h1, h2, h3⟩ := file_name_inj tm tm' heq
    rw [e1, e1'] at h1
    rw [e2, e2'] at h2
    exact ⟨by omega, by omega, h3⟩
  · exact sameDay_file_name tm tm'
  · intro s hex hw hc
    rw [step_writerOpen s true hex hw]
    simp [hc]
  · intro hour min sec
    rfl

/-- Witness of C3 on two times of 2024-05-01. -/
theorem C3_file_name_of_date_witness :
    (mkTm 2024 5 1 10 1 2).dateFits ∧ (mkTm 2024 5 1 23 59 59).dateFits ∧
    file_name (mkTm 2024 5 1 10 1 2) = decimal (124 + 1900) ++ "-" ++ decimal (4 + 1) ++ "-"
      ++ decimal 1 ++ "-log.txt" :=
  ⟨by decide, by decide,
   (C3_file_name_of_date (mkTm 2024 5 1 10 1 2) (mkTm 2024 5 1 23 59 59)
      (by decide) (by decide)).1⟩


/-! ## One iteration of the writer -/

theorem bufferAfter_of_no_localtime (tm : Tm) (es : List Event)
    (h : ∀ e ∈ es, e.isLocaltime = false) : bufferAfter tm es = tm := by
  induction es with
  | nil => rfl
  | cons e es ih =>
    have he := h e (by simp)
    have ht := ih (fun x hx => h x (by simp [hx]))
    cases e with
    | localtime result => simp [Event.isLocaltime] at he
    | log msg => simpa [bufferAfter] using ht
    | setLogLevel level => simpa [bufferAfter] using ht
    | tick now => simpa [bufferAfter] using ht
    | writerOpen ok => simpa [bufferAfter] using ht
    | writerWrite => simpa [bufferAfter] using ht

theorem step_env (s s' : Proc) (e : Event) (he : e.isEnv = true) (h : step s e = some s') :
    s'.writer = s.writer ∧ s'.disk = s.disk ∧ s'.exited = s.exited ∧
      ∀ es, bufferAfter s'.tmBuf es = bufferAfter s.tmBuf (e :: es) := by
  unfold step at h
  cases hex : s.exited with
  | some c => simp [hex] at h
  | none =>
    simp only [hex] at h
    cases e with
    | log msg =>
      simp only [Option.some.injEq] at h
      subst h
      exact ⟨rfl, rfl, hex, fun _ => rfl⟩
    | setLogLevel level =>
      simp only [Option.some.injEq] at h
      subst h
      exact ⟨rfl, rfl, hex, fun _ => rfl⟩
    | tick now =>
      simp only [Option.some.injEq] at h
      subst h
      exact ⟨rfl, rfl, rfl, fun _ => rfl⟩
    | localtime result =>
      simp only [Option.some.injEq] at h
      subst h
      exact ⟨rfl, rfl, rfl, fun _ => rfl⟩
    | writerOpen ok => simp [Event.isEnv] at he
    | writerWrite => simp [Event.isEnv] at he

theorem run_env (s s' : Proc) (es : List Event) (hes : ∀ e ∈ es, e.isEnv = true)
    (h : run s es = some s') :
    s'.writer = s.writer ∧ s'.disk = s.disk ∧ s'.exited = s.exited ∧
      s'.tmBuf = bufferAfter s.tmBuf es := by
  induction es generalizing s with
  | nil =>
    simp only [run, Option.some.injEq] at h
    subst h
    exact ⟨rfl, rfl, rfl, rfl⟩
  | cons e es ih =>
    rw [run_cons] at h
    cases hs : step s e with
    | none => simp [hs] at h
    | some s1 =>
      simp only [hs, Option.some_bind] at h
      obtain ⟨a1, a2, a3, a4⟩ := step_env s s1 e (hes e (by simp)) hs
      obtain ⟨b1, b2, b3, b4⟩ := ih s1 (fun x hx => hes x (by simp [hx])) h
      exact ⟨b1.trans a1, b2.trans a2, b3.trans a3, b4.trans (a4 es)⟩

theorem step_some_exited (s s' : Proc) (e : Event) (h : step s e = some s') :
    s.exited = none := by
  unfold step at h
  cases hex : s.exited with
  | some c => simp [hex] at h
  | none => rfl

theorem iteration_record (s s3 : Proc) (es : List Event) (hes : ∀ e ∈ es, e.isEnv = true)
    (h : run s (Event.writerOpen true :: (es ++ [Event.writerWrite])) = some s3) :
    ∃ s2 msg rest, run s (Event.writerOpen true :: es) = some s2 ∧
      s2.m_lckQue = msg :: rest ∧ s2.tmBuf = bufferAfter s.clock es ∧
      s3.disk = s2.disk ++
        [(file_name s.clock, fputs (formatEntry s2.tmBuf s2.m_loglevel msg))] := by
  rw [run_cons] at h
  cases h1 : step s (Event.writerOpen true) with
  | none => simp [h1] at h
  | some s1 =>
    simp only [h1, Option.some_bind, run_append] at h
    cases h2 : run s1 es with
    | none => simp [h2] at h
    | some s2 =>
      simp only [h2, Option.some_bind, run_cons, run, Option.bind_some] at h
      have hex := step_some_exited _ _ _ h1
      have hw1 : s1.writer = Writer.inPop s.clock (file_name s.clock) ∧ s1.tmBuf = s.clock := by
        cases hw : s.writer with
        | inPop now fn => simp [step, writerOpen, hex, hw] at h1
        | loopTop =>
          rw [step_writerOpen s true hex hw] at h1
          simp only [if_true, Option.some.injEq] at h1
          subst h1
          exact ⟨rfl, rfl⟩
      obtain ⟨e1, _, _, e4⟩ := run_env s1 s2 es hes h2
      have hex2 := step_some_exited _ _ _ h
      cases hq : s2.m_lckQue with
      | nil => simp [step, writerWrite, hex2, e1, hw1.1, hq, LockQueue.Pop] at h
      | cons msg rest =>
        rw [step_writerWrite s2 _ _ msg rest hex2 (e1.trans hw1.1) hq] at h
        simp only [Option.some.injEq] at h
        subst h
        exact ⟨s2, msg, rest, by simp [run_cons, h1, h2], hq, by rw [e4, hw1.2], rfl⟩

theorem fputs_formatEntry (tm : Tm) (lvl : Int) (msg : String) :
    fputs (formatEntry tm lvl msg) = decimal tm.tm_hour ++ ":" ++ decimal tm.tm_min ++ ":"
      ++ decimal tm.tm_sec ++ "=>[" ++ levelTag lvl ++ "]=>" ++ cstr (msg ++ "\n") := by
  rw [fputs, formatEntry, cstr_of_ne_nul _ (time_buf_ne_nul tm lvl), String.append_assoc,
    cstr_append _ _ (time_buf_ne_nul tm lvl), time_buf_eq]

/-- C4, as stated, fails: in the scenario, where no thread but the writer
calls `localtime`, the second message is formatted when the clock reads
10:01:03 and its record is stamped 10:1:2, the time the writer read before it
called `Pop`.  And when another thread has called `localtime` on the time
05:06:07 of another day during the wait, the record is stamped 5:6:7. -/
theorem C4_counterexample :
    (run (Proc.init (mkTm 2024 5 1 10 1 2)) helloWorldBeforeWrite).map
        (fun s => (s.clock, s.m_lckQue, s.writer)) =
      some (mkTm 2024 5 1 10 1 3, ["world"],
        Writer.inPop (mkTm 2024 5 1 10 1 2) "2024-5-1-log.txt") ∧
    helloWorld = helloWorldBeforeWrite ++ [Event.writerWrite] ∧
    (run (Proc.init (mkTm 2024 5 1 10 1 2)) helloWorld).map Proc.disk =
      some [("2024-5-1-log.txt", "10:1:2=>[info]=>hello\n"),
            ("2024-5-1-log.txt", "10:1:2=>[info]=>world\n")] ∧
    (run (Proc.init (mkTm 2024 5 1 10 1 2)) helloWorld).map Proc.disk ≠
      some [("2024-5-1-log.txt", "10:1:2=>[info]=>hello\n"),
            ("2024-5-1-log.txt", "10:1:3=>[info]=>world\n")] ∧
    (run (Proc.init (mkTm 2024 5 1 10 1 2))
      (Event.writerOpen true :: (idleThenWorldLocaltime ++ [Event.writerWrite]))).map
        (fun s => (s.clock, s.disk)) =
      some (mkTm 2024 5 1 10 1 3, [("2024-5-1-log.txt", "5:6:7=>[info]=>world\n")]) := by
  decide

/-- C4, amended: the hour, minute and second of a record are those that the
shared buffer of `localtime` holds when `Pop` has returned and the writer
formats the message.  The writer filled the buffer with the clock reading it
took at the top of the loop iteration, before `fopen` and `Pop`; the buffer
then holds what the last call of `localtime` by another thread stored, and
that reading when no other thread has called `localtime` since.  Clock ticks,
`Log` and `SetLogLevel` in between leave the stamp unchanged.  In the scenario
of two messages logged at 10:01:02 and 10:01:03, where no other thread calls
`localtime`, both records are stamped 10:1:2. -/
theorem C4_stamp_is_localtime_buffer (s s3 : Proc) (es : List Event)
    (hes : ∀ e ∈ es, e.isEnv = true)
    (h : run s (Event.writerOpen true :: (es ++ [Event.writerWrite])) = some s3) :
    (∃ s2 msg rest path, run s (Event.writerOpen true :: es) = some s2 ∧
      s2.m_lckQue = msg :: rest ∧
      s3.disk = s2.disk ++ [(path,
        decimal s2.tmBuf.tm_hour ++ ":" ++ decimal s2.tmBuf.tm_min ++ ":"
          ++ decimal s2.tmBuf.tm_sec ++ "=>[" ++ levelTag s2.m_loglevel ++ "]=>"
          ++ cstr (msg ++ "\n"))] ∧
      s2.tmBuf = bufferAfter s.clock es ∧
      ((∀ e ∈ es, e.isLocaltime = false) → s2.tmBuf = s.clock)) ∧
    ((∀ e ∈ helloWorld, e.isLocaltime = false) ∧
      (run (Proc.init (mkTm 2024 5 1 10 1 2)) helloWorld).map Proc.disk =
        some [("2024-5-1-log.txt", "10:1:2=>[info]=>hello\n"),
              ("2024-5-1-log.txt", "10:1:2=>[info]=>world\n")]) := by
  obtain ⟨s2, msg, rest, h1, h2, h3, h4⟩ := iteration_record s s3 es hes h
  refine ⟨⟨s2, msg, rest, file_name s.clock, h1, h2, ?_, h3, ?_⟩, by decide, by decide⟩
  · rw [h4, fputs_formatEntry]
  · intro hno
    rw [h3, bufferAfter_of_no_localtime _ _ hno]

/-- Witness of the amended C4: the writer reads 10:01:02, `world` arrives at
10:01:03, no other thread calls `localtime`, and the record is stamped
10:1:2. -/
theorem C4_stamp_is_localtime_buffer_witness :
    (∀ e ∈ idleThenWorld, e.isEnv = true) ∧
    run (Proc.init (mkTm 2024 5 1 10 1 2))
      (Event.writerOpen true :: (idleThenWorld ++ [Event.writerWrite])) = some idleThenWorldEnd ∧
    ∃ s2 msg rest path,
      run (Proc.init (mkTm 2024 5 1 10 1 2)) (Event.writerOpen true :: idleThenWorld) = some s2 ∧
      s2.m_lckQue = msg :: rest ∧
      idleThenWorldEnd.disk = s2.disk ++ [(path,
        decimal s2.tmBuf.tm_hour ++ ":" ++ decimal s2.tmBuf.tm_min ++ ":"
          ++ decimal s2.tmBuf.tm_sec ++ "=>[" ++ levelTag s2.m_loglevel ++ "]=>"
          ++ cstr (msg ++ "\n"))] ∧
      s2.tmBuf = bufferAfter (Proc.init (mkTm 2024 5 1 10 1 2)).clock idleThenWorld ∧
      ((∀ e ∈ idleThenWorld, e.isLocaltime = false) →
        s2.tmBuf = (Proc.init (mkTm 2024 5 1 10 1 2)).clock) :=
  ⟨by decide, by decide,
   (C4_stamp_is_localtime_buffer (Proc.init (mkTm 2024 5 1 10 1 2)) idleThenWorldEnd
     idleThenWorld (by decide) (by decide)).1⟩

theorem fputs_formatEntry_info (tm : Tm) (msg : String) :
    fputs (formatEntry tm LogLevel.INFO.toInt msg) = decimal tm.tm_hour ++ ":"
      ++ decimal tm.tm_min ++ ":" ++ decimal tm.tm_sec ++ "=>[info]=>" ++ cstr (msg ++ "\n") := by
  rw [fputs_formatEntry]
  have : levelTag LogLevel.INFO.toInt = "info" := by decide
  rw [this]
  simp only [String.append_assoc]
  rfl

theorem fputs_formatEntry_error (tm : Tm) (msg : String) :
    fputs (formatEntry tm LogLevel.ERROR.toInt msg) = decimal tm.tm_hour ++ ":"
      ++ decimal tm.tm_min ++ ":" ++ decimal tm.tm_sec ++ "=>[error]=>" ++ cstr (msg ++ "\n") := by
  rw [fputs_formatEntry]
  have : levelTag LogLevel.ERROR.toInt = "error" := by decide
  rw [this]
  simp only [String.append_assoc]
  rfl

/-- C6: when `Pop` returns a message, the record written for it carries the
name of the level stored at that moment, `info` for `INFO` and `error` for
`ERROR`, whatever the level was when `Log` was called.  In particular, if
the writer is waiting on the empty queue, a message is logged while the
level is `INFO`, and `SetLogLevel(ERROR)` is called before the message is
taken from the queue, its record is tagged `error`.  The time stamp of the
record is what the shared buffer of `localtime` holds at that moment. -/
theorem C6_tag_is_level_at_formatting (s : Proc) (now : Tm) (fn msg : String)
    (rest : List String) (hex : s.exited = none) (hw : s.writer = Writer.inPop now fn)
    (hq : s.m_lckQue = msg :: rest) :
    (step s Event.writerWrite).map Proc.disk = some (s.disk ++ [(fn,
        decimal s.tmBuf.tm_hour ++ ":" ++ decimal s.tmBuf.tm_min ++ ":"
          ++ decimal s.tmBuf.tm_sec
          ++ "=>[" ++ levelTag s.m_loglevel ++ "]=>" ++ cstr (msg ++ "\n"))]) ∧
    (s.m_loglevel = LogLevel.INFO.toInt → levelTag s.m_loglevel = "info") ∧
    (s.m_loglevel = LogLevel.ERROR.toInt → levelTag s.m_loglevel = "error") ∧
    (∀ (t : Proc) (m : String), t.exited = none → t.writer = Writer.inPop now fn →
      t.m_lckQue = [] →
      (run t [Event.setLogLevel LogLevel.INFO, Event.log m, Event.setLogLevel LogLevel.ERROR,
        Event.writerWrite]).map Proc.disk = some (t.disk ++ [(fn,
          decimal t.tmBuf.tm_hour ++ ":" ++ decimal t.tmBuf.tm_min ++ ":"
            ++ decimal t.tmBuf.tm_sec
            ++ "=>[error]=>" ++ cstr (m ++ "\n"))])) := by
  refine ⟨?_, ?_, ?_, ?_⟩
  · rw [step_writerWrite s now fn msg rest hex hw hq]
    simp only [Option.map_some', fputs_formatEntry]
  · intro h
    simp [levelTag, h]
  · intro h
    simp [levelTag, h, LogLevel.toInt]
  · intro t m h1 h2 h3
    simp only [run, step, h1, h2, h3, writerWrite, Log, SetLogLevel, LockQueue.Push,
      LockQueue.Pop, Option.some_bind, Option.bind_some, List.nil_append, Option.map_some',
      fputs_formatEntry_error]

/-- Witness of C6: the writer waits with `hello` queued. -/
theorem C6_tag_is_level_at_formatting_witness :
    waitingWithHello.exited = none ∧
    waitingWithHello.writer = Writer.inPop (mkTm 2024 5 1 10 1 2) "2024-5-1-log.txt" ∧
    waitingWithHello.m_lckQue = "hello" :: [] ∧
    (step waitingWithHello Event.writerWrite).map Proc.disk =
      some (waitingWithHello.disk ++ [("2024-5-1-log.txt",
        decimal waitingWithHello.tmBuf.tm_hour ++ ":" ++ decimal waitingWithHello.tmBuf.tm_min
          ++ ":" ++ decimal waitingWithHello.tmBuf.tm_sec
          ++ "=>[" ++ levelTag waitingWithHello.m_loglevel ++ "]=>" ++ cstr ("hello" ++ "\n"))]) :=
  ⟨by decide, by decide, by decide,
   (C6_tag_is_level_at_formatting waitingWithHello (mkTm 2024 5 1 10 1 2) "2024-5-1-log.txt"
      "hello" [] (by decide) (by decide) (by decide)).1⟩


theorem step_keeps_info (s s' : Proc) (e : Event) (he : e.isSetLogLevel = false)
    (h0 : s.m_loglevel = LogLevel.INFO.toInt ∧ ∀ rec ∈ s.disk, TaggedInfo rec)
    (h : step s e = some s') :
    s'.m_loglevel = LogLevel.INFO.toInt ∧ ∀ rec ∈ s'.disk, TaggedInfo rec := by
  obtain ⟨hl, hd⟩ := h0
  have hex := step_some_exited _ _ _ h
  cases e with
  | log msg =>
    simp only [step, hex, Option.some.injEq] at h
    subst h
    exact ⟨hl, hd⟩
  | setLogLevel level => simp [Event.isSetLogLevel] at he
  | tick now =>
    simp only [step, hex, Option.some.injEq] at h
    subst h
    exact ⟨hl, hd⟩
  | localtime result =>
    simp only [step, hex, Option.some.injEq] at h
    subst h
    exact ⟨hl, hd⟩
  | writerOpen ok =>
    cases hw : s.writer with
    | inPop now fn => simp [step, writerOpen, hex, hw] at h
    | loopTop =>
      rw [step_writerOpen s ok hex hw] at h
      simp only [Option.some.injEq] at h
      subst h
      cases ok
      · exact ⟨hl, hd⟩
      · exact ⟨hl, hd⟩
  | writerWrite =>
    cases hw : s.writer with
    | loopTop => simp [step, writerWrite, hex, hw] at h
    | inPop now fn =>
      cases hq : s.m_lckQue with
      | nil => simp [step, writerWrite, hex, hw, hq, LockQueue.Pop] at h
      | cons msg rest =>
        rw [step_writerWrite s now fn msg rest hex hw hq] at h
        simp only [Option.some.injEq] at h
        subst h
        refine ⟨hl, ?_⟩
        intro rec hrec
        simp only [List.mem_append, List.mem_singleton] at hrec
        rcases hrec with hrec | hrec
        · exact hd rec hrec
        · subst hrec
          exact ⟨s.tmBuf, msg, by rw [hl, fputs_formatEntry_info]⟩

theorem run_keeps_info (s s' : Proc) (es : List Event)
    (hes : ∀ e ∈ es, e.isSetLogLevel = false)
    (h0 : s.m_loglevel = LogLevel.INFO.toInt ∧ ∀ rec ∈ s.disk, TaggedInfo rec)
    (h : run s es = some s') :
    s'.m_loglevel = LogLevel.INFO.toInt ∧ ∀ rec ∈ s'.disk, TaggedInfo rec := by
  induction es generalizing s with
  | nil =>
    simp only [run, Option.some.injEq] at h
    exact h ▸ h0
  | cons e es ih =>
    rw [run_cons] at h
    cases hs : step s e with
    | none => simp [hs] at h
    | some s1 =>
      simp only [hs, Option.some_bind] at h
      exact ih s1 (fun x hx => hes x (by simp [hx]))
        (step_keeps_info s s1 e (hes e (by simp)) h0 hs) h

/-- C7: the level stored in a freshly constructed logger is `INFO`, and in
every run from there in which `SetLogLevel` is never called the stored level
stays `INFO` and every record on disk is tagged `info`. -/
theorem C7_default_level_is_info (clock : Tm) (es : List Event) (s : Proc)
    (hes : ∀ e ∈ es, e.isSetLogLevel = false) (h : run (Proc.init clock) es = some s) :
    (Proc.init clock).m_loglevel = LogLevel.INFO.toInt ∧
    levelTag (Proc.init clock).m_loglevel = "info" ∧
    s.m_loglevel = LogLevel.INFO.toInt ∧
    ∀ rec ∈ s.disk, ∃ (tm : Tm) (msg : String), rec.2 = decimal tm.tm_hour ++ ":"
      ++ decimal tm.tm_min ++ ":" ++ decimal tm.tm_sec ++ "=>[info]=>" ++ cstr (msg ++ "\n") := by
  have := run_keeps_info (Proc.init clock) s es hes ⟨rfl, by simp [Proc.init]⟩ h
  exact ⟨rfl, rfl, this.1, this.2⟩

/-- Witness of C7 on the scenario of two messages, which never calls
`SetLogLevel`. -/
theorem C7_default_level_is_info_witness :
    (∀ e ∈ helloWorld, e.isSetLogLevel = false) ∧
    run (Proc.init (mkTm 2024 5 1 10 1 2)) helloWorld = some helloWorldEnd ∧
    helloWorldEnd.m_loglevel = LogLevel.INFO.toInt :=
  ⟨by decide, by decide,
   (C7_default_level_is_info (mkTm 2024 5 1 10 1 2) helloWorld helloWorldEnd (by decide)
      (by decide)).2.2.1⟩

/-- C8: when the writer is at the top of its loop and `fopen` fails, the
iteration prints the diagnostic, the text `logger fiel : `, the path,
`open error!` and a line end, on `std::cout` and terminates the process with
the status 1, `EXIT_FAILURE`; the queue, the records on disk, the open files
and the histories are as before, and no transition, so no retry and no later
iteration, is possible afterwards.  Conversely, a transition that terminates
the process is a writer iteration whose `fopen` failed, and it prints that
diagnostic.  For a logger constructed on 2024-05-01 whose first `fopen`
fails, the output is `logger fiel : 2024-5-1-log.txtopen error!`. -/
theorem C8_open_failure_terminates (s : Proc) (hex : s.exited = none)
    (hw : s.writer = Writer.loopTop) :
    (∃ s', step s (Event.writerOpen false) = some s' ∧
      s'.exited = some 1 ∧
      s'.stdout = s.stdout ++ ["logger fiel : " ++ file_name s.clock ++ "open error!" ++ "\n"] ∧
      s'.m_lckQue = s.m_lckQue ∧ s'.disk = s.disk ∧ s'.openFiles = s.openFiles ∧
      s'.written = s.written ∧ s'.logged = s.logged ∧ s'.m_loglevel = s.m_loglevel ∧
      (∀ e, step s' e = none) ∧ (∀ e es, run s' (e :: es) = none)) ∧
    (∀ (t t' : Proc) (e : Event), step t e = some t' → t'.exited ≠ none →
      e = Event.writerOpen false ∧ t.writer = Writer.loopTop ∧ t'.exited = some 1 ∧
      t'.stdout = t.stdout ++ ["logger fiel : " ++ file_name t.clock ++ "open error!" ++ "\n"]) ∧
    (step (Proc.init (mkTm 2024 5 1 10 1 2)) (Event.writerOpen false)).map
        (fun s => (s.stdout, s.exited, s.disk, s.m_lckQue)) =
      some (["logger fiel : 2024-5-1-log.txtopen error!\n"], some 1, [], []) := by
  refine ⟨?_, ?_, by decide⟩
  · have h1 := step_writerOpen s false hex hw
    simp only [Bool.false_eq_true, if_false] at h1
    refine ⟨_, h1, rfl, rfl, rfl, rfl, rfl, rfl, rfl, rfl, ?_, ?_⟩
    · intro e
      simp [step]
    · intro e es
      simp [run, step]
  · intro t t' e hstep hexit
    have hext := step_some_exited _ _ _ hstep
    cases e with
    | log msg =>
      simp only [step, hext, Option.some.injEq] at hstep
      subst hstep
      exact absurd hext hexit
    | setLogLevel level =>
      simp only [step, hext, Option.some.injEq] at hstep
      subst hstep
      exact absurd hext hexit
    | tick now =>
      simp only [step, hext, Option.some.injEq] at hstep
      subst hstep
      exact absurd rfl hexit
    | localtime result =>
      simp only [step, hext, Option.some.injEq] at hstep
      subst hstep
      exact absurd rfl hexit
    | writerOpen ok =>
      cases hwt : t.writer with
      | inPop now fn => simp [step, writerOpen, hext, hwt] at hstep
      | loopTop =>
        rw [step_writerOpen t ok hext hwt] at hstep
        simp only [Option.some.injEq] at hstep
        subst hstep
        cases ok
        · exact ⟨rfl, rfl, rfl, rfl⟩
        · exact absurd hext hexit
    | writerWrite =>
      cases hwt : t.writer with
      | loopTop => simp [step, writerWrite, hext, hwt] at hstep
      | inPop now fn =>
        cases hq : t.m_lckQue with
        | nil => simp [step, writerWrite, hext, hwt, hq, LockQueue.Pop] at hstep
        | cons msg rest =>
          rw [step_writerWrite t now fn msg rest hext hwt hq] at hstep
          simp only [Option.some.injEq] at hstep
          subst hstep
          exact absurd hext hexit

/-- Witness of C8: the first `fopen` of a logger constructed on 2024-05-01
fails; the diagnostic names the file and the status is 1. -/
theorem C8_open_failure_terminates_witness :
    (Proc.init (mkTm 2024 5 1 10 1 2)).exited = none ∧
    (Proc.init (mkTm 2024 5 1 10 1 2)).writer = Writer.loopTop ∧
    ∃ s', step (Proc.init (mkTm 2024 5 1 10 1 2)) (Event.writerOpen false) = some s' ∧
      s'.exited = some 1 ∧
      s'.stdout = ["logger fiel : 2024-5-1-log.txtopen error!\n"] ∧
      ∀ e, step s' e = none := by
  refine ⟨by decide, by decide, ?_⟩
  obtain ⟨s', h1, h2, h3, _, _, _, _, _, _, h4, _⟩ :=
    (C8_open_failure_terminates (Proc.init (mkTm 2024 5 1 10 1 2)) (by decide) (by decide)).1
  exact ⟨s', h1, h2, h3.trans (by decide), h4⟩

/-- C9, as stated, fails: right after the first `fopen` the writer is
suspended in `Pop` on the empty queue and the log file is open. -/
theorem C9_counterexample :
    run (Proc.init (mkTm 2024 5 1 10 1 2)) [Event.writerOpen true] = some waitingIdle ∧
    waitingIdle.m_lckQue = [] ∧
    waitingIdle.writer = Writer.inPop (mkTm 2024 5 1 10 1 2) "2024-5-1-log.txt" ∧
    waitingIdle.openFiles = ["2024-5-1-log.txt"] ∧
    waitingIdle.openFiles ≠ [] ∧
    step waitingIdle Event.writerWrite = none := by
  decide

/-- C9, amended: in every reachable state, no file is open while the writer
is at the top of its loop, and while the writer is inside `Pop`, waiting or
not, exactly one file is open, the one named for the date it read before the
call; the write that follows the return of `Pop` adds one record and leaves
no file open.  So a file is open for one open, wait, write, close cycle of a
single message. -/
theorem C9_file_open_while_in_pop (s : Proc) (h : Reachable s) :
    (s.writer = Writer.loopTop → s.openFiles = []) ∧
    (∀ now fn, s.writer = Writer.inPop now fn →
      s.openFiles = [fn] ∧ fn = file_name now) ∧
    (∀ s', step s Event.writerWrite = some s' →
      s'.openFiles = [] ∧ s'.writer = Writer.loopTop ∧ s'.disk.length = s.disk.length + 1) := by
  have hinv := (reachable_inv s h).2.1
  unfold WriterInv at hinv
  refine ⟨?_, ?_, ?_⟩
  · intro hw
    simpa [hw] using hinv
  · intro now fn hw
    simpa [hw] using hinv
  · intro s' hstep
    have hex := step_some_exited _ _ _ hstep
    cases hw : s.writer with
    | loopTop => simp [step, writerWrite, hex, hw] at hstep
    | inPop now fn =>
      cases hq : s.m_lckQue with
      | nil => simp [step, writerWrite, hex, hw, hq, LockQueue.Pop] at hstep
      | cons msg rest =>
        rw [step_writerWrite s now fn msg rest hex hw hq] at hstep
        simp only [Option.some.injEq] at hstep
        subst hstep
        simp only [hw] at hinv
        simp [hinv.1]

/-- Witness of the amended C9: the waiting state is reachable and holds one
open file. -/
theorem C9_file_open_while_in_pop_witness :
    Reachable waitingIdle ∧
    (∀ now fn, waitingIdle.writer = Writer.inPop now fn →
      waitingIdle.openFiles = [fn] ∧ fn = file_name now) :=
  ⟨⟨mkTm 2024 5 1 10 1 2, [Event.writerOpen true], by decide⟩,
   (C9_file_open_while_in_pop waitingIdle
      ⟨mkTm 2024 5 1 10 1 2, [Event.writerOpen true], by decide⟩).2.1⟩

/-- C10, as stated, fails: for the message `ab`, NUL, `cd` the entry holds
the whole message and the newline, and `fputs` appends only the prefix and
`ab`; the rest of the message and the newline are not written. -/
theorem C10_counterexample :
    formatEntry (mkTm 2024 5 1 10 1 2) LogLevel.INFO.toInt nulMessage =
      "10:1:2=>[info]=>" ++ nulMessage ++ "\n" ∧
    fputs (formatEntry (mkTm 2024 5 1 10 1 2) LogLevel.INFO.toInt nulMessage) =
      "10:1:2=>[info]=>ab" ∧
    fputs (formatEntry (mkTm 2024 5 1 10 1 2) LogLevel.INFO.toInt nulMessage) ≠
      formatEntry (mkTm 2024 5 1 10 1 2) LogLevel.INFO.toInt nulMessage ∧
    (run (Proc.init (mkTm 2024 5 1 10 1 2))
      [Event.writerOpen true, Event.log nulMessage, Event.writerWrite]).map Proc.disk =
      some [("2024-5-1-log.txt", "10:1:2=>[info]=>ab")] := by
  decide

/-- C10, amended: for every message text without a NUL character, the text
the writer appends to the file is exactly the formatted entry: the time and
level prefix, the whole message unchanged, and one newline. -/
theorem C10_entry_written_whole (tm : Tm) (m_loglevel : Int) (msg : String)
    (h : ∀ c ∈ msg.data, c ≠ NUL) :
    fputs (formatEntry tm m_loglevel msg) = formatEntry tm m_loglevel msg ∧
    formatEntry tm m_loglevel msg =
      decimal tm.tm_hour ++ ":" ++ decimal tm.tm_min ++ ":" ++ decimal tm.tm_sec
        ++ "=>[" ++ levelTag m_loglevel ++ "]=>" ++ msg ++ "\n" ∧
    (∀ (s : Proc) (now : Tm) (fn : String) (rest : List String), s.exited = none →
      s.writer = Writer.inPop now fn → s.tmBuf = tm → s.m_loglevel = m_loglevel →
      s.m_lckQue = msg :: rest →
      (step s Event.writerWrite).map Proc.disk =
        some (s.disk ++ [(fn, formatEntry tm m_loglevel msg)])) := by
  have hw := fputs_formatEntry_of_ne_nul tm m_loglevel msg h
  refine ⟨hw, formatEntry_eq tm m_loglevel msg, ?_⟩
  intro s now fn rest hex hwr htm hl hq
  rw [step_writerWrite s now fn msg rest hex hwr hq]
  simp only [Option.map_some', hl, htm, hw]

/-- Witness of the amended C10 on the message `hello`. -/
theorem C10_entry_written_whole_witness :
    (∀ c ∈ ("hello" : String).data, c ≠ NUL) ∧
    fputs (formatEntry (mkTm 2024 5 1 10 1 2) 0 "hello") =
      formatEntry (mkTm 2024 5 1 10 1 2) 0 "hello" :=
  ⟨by decide, (C10_entry_written_whole (mkTm 2024 5 1 10 1 2) 0 "hello" (by decide)).1⟩


end Mprpc
